import Mathlib

/-!
# yalb: the routing core of `main.go`

A shallow embedding of the load balancer's selection policies
(`getNextAvailableServer`), its connection accounting
(`incrementActiveConnections`, `decrementActiveConnections`), the request
path (`serveProxy`) and start-up (`NewLoadBalancer`, `main`).

Modelling conventions.

* Go `int` is 64 bits here: `leastConnections := math.MaxInt64` only compiles
  when `int` can hold `math.MaxInt64`.  Integers are `Int`; `++` wraps with
  `wrapInt`.
* A `Server` value is a `*SimpleServer`; the map `activeConnections` is keyed
  by pointer identity, so a server carries its allocation identity `ptr`.
* `isAlive` is a network probe; it is a parameter `Server → Bool`, fixed for
  the duration of the calls under study.
* The `for !server.isAlive()` loop has no bound in the source; it is run with
  a budget of liveness probes (`fuel`), and `Outcome.running` says that the
  loop was about to make one more probe when the budget was used up.
-/

namespace Yalb

/-- The value of `math.MaxInt64`. -/
def maxInt64 : Int := 9223372036854775807

/-- The value of `math.MinInt64`. -/
def minInt64 : Int := -9223372036854775808

/-- Two's-complement reduction of a mathematical integer to a Go `int`. -/
def wrapInt (x : Int) : Int :=
  (x + 9223372036854775808) % 18446744073709551616 - 9223372036854775808

/-- The struct `SimpleServer` behind a `Server` interface value: `ptr` is the
identity of the allocation made by `newSimpleServer` (interface values that
hold pointers compare by pointer), `address` the field of the struct.  The
`proxy` field is determined by `address` and plays no part in selection. -/
structure Server where
  ptr : Nat
  address : String
deriving DecidableEq, Repr

/-- The struct `Config`. -/
structure Config where
  servers : List String
  algorithm : String
  port : String
deriving DecidableEq, Repr

/-- The struct `LoadBalancer` (the mutex has no value of its own).  A Go map
is a finite partial function; reading a missing key yields `0`. -/
structure LoadBalancer where
  port : String
  roundRobinCount : Int
  servers : List Server
  activeConnections : Server → Option Int

/-- How a call ends: it returns, it panics, or it is still executing when the
probe budget is exhausted. -/
inductive Outcome (α : Type) where
  | ok (a : α) : Outcome α
  | panic (msg : String) : Outcome α
  | running : Outcome α

/-- The expression `lb.activeConnections[server]` read as a value. -/
def connectionsOf (activeConnections : Server → Option Int) (server : Server) : Int :=
  (activeConnections server).getD 0

/-- The count of `server` in the state `lb`. -/
def LoadBalancer.count (lb : LoadBalancer) (server : Server) : Int :=
  connectionsOf lb.activeConnections server

/-- The function `newSimpleServer`; `ptr` is the fresh allocation. -/
def newSimpleServer (ptr : Nat) (address : String) : Server :=
  { ptr := ptr, address := address }

/-- The loop of `NewLoadBalancer`: `activeConnections[server] = 0` for every
server of the slice, on an empty map. -/
def zeroConnections : List Server → (Server → Option Int)
  | [] => fun _ => none
  | server :: rest => fun s => if s = server then some 0 else zeroConnections rest s

/-- The function `NewLoadBalancer`.  The source writes the keys in slice
order; all values are `0`, so the order of the writes is immaterial. -/
def NewLoadBalancer (port : String) (servers : List Server) : LoadBalancer :=
  { port := port, roundRobinCount := 0, servers := servers,
    activeConnections := zeroConnections servers }

/-- The expression `lb.servers[lb.roundRobinCount%len(lb.servers)]`: Go's `%`
truncates towards zero and panics on a zero divisor; indexing panics outside
`0 ≤ i < len`. -/
def serverAt (servers : List Server) (roundRobinCount : Int) : Outcome Server :=
  if servers.length = 0 then Outcome.panic "integer divide by zero"
  else
    let i := Int.tmod roundRobinCount servers.length
    if i < 0 then Outcome.panic "index out of range"
    else
      match servers[i.toNat]? with
      | some server => Outcome.ok server
      | none => Outcome.panic "index out of range"

/-- The `"round-robin"` case of `getNextAvailableServer`.  The fetch of line
61 and the fetch of line 64 are the same expression; it is evaluated before
each evaluation of `server.isAlive()`.  One unit of fuel pays for one probe:
with no fuel left the fetch is still made (and can panic), and the pending
probe is reported as `Outcome.running`. -/
def roundRobin (isAlive : Server → Bool) : Nat → LoadBalancer → Outcome (Server × LoadBalancer)
  | 0, lb =>
    match serverAt lb.servers lb.roundRobinCount with
    | Outcome.ok _ => Outcome.running
    | Outcome.panic msg => Outcome.panic msg
    | Outcome.running => Outcome.running
  | fuel + 1, lb =>
    match serverAt lb.servers lb.roundRobinCount with
    | Outcome.ok server =>
      if isAlive server then
        Outcome.ok (server, { lb with roundRobinCount := wrapInt (lb.roundRobinCount + 1) })
      else
        roundRobin isAlive fuel { lb with roundRobinCount := wrapInt (lb.roundRobinCount + 1) }
    | Outcome.panic msg => Outcome.panic msg
    | Outcome.running => Outcome.running

/-- The `for _, server := range lb.servers` loop of the `"least-connections"`
case.  `some server` is a `return server` inside the loop, `none` is falling
out of the loop.  The assignment `leastConnections = connections` is followed
at once by `return`, so the next iteration always sees the initial value. -/
def leastConnectionsLoop (isAlive : Server → Bool) (activeConnections : Server → Option Int)
    (leastConnections : Int) : List Server → Option Server
  | [] => none
  | server :: rest =>
    let connections := connectionsOf activeConnections server
    if connections = 0 && isAlive server then some server
    else if decide (connections < leastConnections) && isAlive server then some server
    else leastConnectionsLoop isAlive activeConnections leastConnections rest

/-- The final statement `return lb.servers[0]`. -/
def firstServer (lb : LoadBalancer) : Outcome (Server × LoadBalancer) :=
  match lb.servers with
  | [] => Outcome.panic "index out of range"
  | server :: _ => Outcome.ok (server, lb)

/-- The method `getNextAvailableServer`.  `config` is what the call
`readConfigFile()` at its head returns (`none` is the nil pointer returned
when `YALB_CONFIG` is unset; the error value is discarded by the source). -/
def getNextAvailableServer (config : Option Config) (isAlive : Server → Bool) (fuel : Nat)
    (lb : LoadBalancer) : Outcome (Server × LoadBalancer) :=
  match config with
  | none => Outcome.panic "nil pointer dereference"
  | some config =>
    if config.algorithm = "round-robin" then roundRobin isAlive fuel lb
    else if config.algorithm = "least-connections" then
      match leastConnectionsLoop isAlive lb.activeConnections maxInt64 lb.servers with
      | some server => Outcome.ok (server, lb)
      | none => firstServer lb
    else firstServer lb

/-- The method `incrementActiveConnections`: `lb.activeConnections[server]++`
under the mutex.  A missing key is created. -/
def incrementActiveConnections (lb : LoadBalancer) (server : Server) : LoadBalancer :=
  { lb with activeConnections := fun s =>
      if s = server then some (wrapInt (lb.count server + 1)) else lb.activeConnections s }

/-- The method `decrementActiveConnections`.  The `--` is guarded by `> 0`,
so it cannot leave the range of `int`. -/
def decrementActiveConnections (lb : LoadBalancer) (server : Server) : LoadBalancer :=
  if lb.count server > 0 then
    { lb with activeConnections := fun s =>
        if s = server then some (lb.count server - 1) else lb.activeConnections s }
  else lb

/-- How `targetServer.Serve(w, r)` ends: the reverse proxy relays the
response, answers with a gateway error, or aborts the handler by panicking. -/
inductive Forwarding where
  | relayed
  | failed
  | aborted
deriving DecidableEq, Repr

/-- The method `serveProxy`: select, increment, forward, and the deferred
decrement, which runs on every way out of `Serve`, a panic included.  The
result carries how forwarding ended and the state left behind once the
deferred call has run; with `Forwarding.aborted` the panic of `Serve` then
goes on to the caller. -/
def serveProxy (config : Option Config) (isAlive : Server → Bool) (serve : Server → Forwarding)
    (fuel : Nat) (lb : LoadBalancer) : Outcome (Forwarding × LoadBalancer) :=
  match getNextAvailableServer config isAlive fuel lb with
  | Outcome.ok (targetServer, lb1) =>
    let lb2 := incrementActiveConnections lb1 targetServer
    let forwarded := serve targetServer
    Outcome.ok (forwarded, decrementActiveConnections lb2 targetServer)
  | Outcome.panic msg => Outcome.panic msg
  | Outcome.running => Outcome.running

/-- The loop of `main` that builds the pool: one fresh server per address, in
the order of the list. -/
def buildServers (next : Nat) : List String → List Server
  | [] => []
  | address :: rest => newSimpleServer next address :: buildServers (next + 1) rest

/-- The function `main` up to the point where it starts listening.  `config`
and `confErr` are the two results of `readConfigFile()`; the only check is
`confErr != nil`. -/
def main (config : Option Config) (confErr : Option String) : Outcome LoadBalancer :=
  match confErr with
  | some msg => Outcome.panic msg
  | none =>
    match config with
    | none => Outcome.panic "nil pointer dereference"
    | some config => Outcome.ok (NewLoadBalancer config.port (buildServers 0 config.servers))

/-- Consecutive calls of `getNextAvailableServer`, each on the state left by
the previous one, collecting the servers returned. -/
def selectMany (config : Option Config) (isAlive : Server → Bool) (fuel : Nat) :
    Nat → LoadBalancer → Outcome (List Server × LoadBalancer)
  | 0, lb => Outcome.ok ([], lb)
  | n + 1, lb =>
    match getNextAvailableServer config isAlive fuel lb with
    | Outcome.ok (server, lb1) =>
      match selectMany config isAlive fuel n lb1 with
      | Outcome.ok (rest, lb2) => Outcome.ok (server :: rest, lb2)
      | Outcome.panic msg => Outcome.panic msg
      | Outcome.running => Outcome.running
    | Outcome.panic msg => Outcome.panic msg
    | Outcome.running => Outcome.running

/-- A step of the accounting: a request to a backend starts or finishes. -/
inductive Event where
  | start (server : Server)
  | finish (server : Server)
deriving DecidableEq, Repr

/-- The effect of one accounting step on the state. -/
def step (lb : LoadBalancer) : Event → LoadBalancer
  | Event.start server => incrementActiveConnections lb server
  | Event.finish server => decrementActiveConnections lb server

/-- The effect of a sequence of accounting steps, first step first. -/
def run (lb : LoadBalancer) (trace : List Event) : LoadBalancer :=
  trace.foldl step lb

/-- The number of requests to `server` started and not yet finished after
`trace`. -/
def inFlight (trace : List Event) (server : Server) : Nat :=
  trace.count (Event.start server) - trace.count (Event.finish server)

/-- Every finish matches an earlier unfinished start: no prefix of the trace
has more finishes than starts for any backend. -/
def Matched (trace : List Event) : Prop :=
  ∀ p, p <+: trace → ∀ server, p.count (Event.finish server) ≤ p.count (Event.start server)

/-- No increment of the trace is applied to a count that has reached
`math.MaxInt64`, when the trace is run from `lb`. -/
def incrementsFit : LoadBalancer → List Event → Prop
  | _, [] => True
  | lb, Event.start server :: rest =>
    lb.count server < maxInt64 ∧ incrementsFit (incrementActiveConnections lb server) rest
  | lb, Event.finish server :: rest =>
    incrementsFit (decrementActiveConnections lb server) rest

/-- The backend at position `i` of the pool read cyclically, `servers[i mod N]`. -/
def poolAt (servers : List Server) (i : Nat) : Option Server :=
  servers[i % servers.length]?

/-- The `m` backends at cyclic positions `c, c + 1, ..., c + m - 1`, in that
order. -/
def cyclicWindow (servers : List Server) : Nat → Nat → List Server
  | _, 0 => []
  | c, m + 1 => (poolAt servers c).toList ++ cyclicWindow servers (c + 1) m

/-- The configuration snapshots used in the examples. -/
def roundRobinConfig : Config := { servers := [], algorithm := "round-robin", port := "8080" }

/-- A snapshot that selects least-connections. -/
def leastConnConfig : Config := { servers := [], algorithm := "least-connections", port := "8080" }

/-- Backend A. -/
def srvA : Server := newSimpleServer 0 "http://a"

/-- Backend B. -/
def srvB : Server := newSimpleServer 1 "http://b"

/-- Backend C. -/
def srvC : Server := newSimpleServer 2 "http://c"

/-- The pool `[A, B, C]`. -/
def poolABC : List Server := [srvA, srvB, srvC]

/-- The count map `{A:3, B:1, C:1}`. -/
def counts311 : Server → Option Int := fun s =>
  if s = srvA then some 3 else if s = srvB then some 1 else if s = srvC then some 1 else none

/-- The pool `[A, B, C]` with counts `{A:3, B:1, C:1}`. -/
def lbABC311 : LoadBalancer :=
  { port := "8080", roundRobinCount := 0, servers := poolABC, activeConnections := counts311 }

/-- The pool `[A, B]`. -/
def poolAB : List Server := [srvA, srvB]

/-- A fresh load balancer over `[A, B]`. -/
def lbAB : LoadBalancer := NewLoadBalancer "8080" poolAB

/-- The pool `[A, B, C]`, zero counts, with the cursor at `math.MaxInt64`. -/
def lbABCAtMax : LoadBalancer :=
  { NewLoadBalancer "8080" poolABC with roundRobinCount := maxInt64 }

/-- The pool `[A]` where the count of `A` has reached `math.MaxInt64`. -/
def lbAFull : LoadBalancer :=
  { port := "8080", roundRobinCount := 0, servers := [srvA],
    activeConnections := fun s => if s = srvA then some maxInt64 else none }

/-- A fresh load balancer over `[A]`. -/
def lbA : LoadBalancer := NewLoadBalancer "8080" [srvA]

/-- As many request starts for `A` as there are non-negative values of `int`
plus one (`2^63`), none of them finished. -/
def floodTrace : List Event := List.replicate 9223372036854775808 (Event.start srvA)

/-- Two requests to `A` and one to `B` overlap; the one to `B` and one to `A`
finish. -/
def sampleTrace : List Event :=
  [Event.start srvA, Event.start srvB, Event.start srvA, Event.finish srvB, Event.finish srvA]

/-- A decrement with no matching increment, then a request that starts and
finishes, then one more stray decrement. -/
def strayTrace : List Event :=
  [Event.finish srvA, Event.start srvA, Event.finish srvA, Event.finish srvA]

/-- Forwarding that always ends in a gateway error. -/
def alwaysFails : Server → Forwarding := fun _ => Forwarding.failed

/-- A snapshot whose server list is empty. -/
def emptyConfig : Config := { servers := [], algorithm := "round-robin", port := "8080" }

/-- Every backend answers its probe. -/
def allLive : Server → Bool := fun _ => true

/-- No backend answers its probe. -/
def allDead : Server → Bool := fun _ => false

/-- Only backend `B` fails its probe. -/
def onlyBDead : Server → Bool := fun s => decide (s ≠ srvB)

/-! ## Least-connections -/

theorem leastConnectionsLoop_eq_find (isAlive : Server → Bool)
    (activeConnections : Server → Option Int) (leastConnections : Int) (servers : List Server)
    (hlt : ∀ s ∈ servers, connectionsOf activeConnections s < leastConnections) :
    leastConnectionsLoop isAlive activeConnections leastConnections servers
      = servers.find? isAlive := by
  induction servers with
  | nil => rfl
  | cons server rest ih =>
    have h1 : connectionsOf activeConnections server < leastConnections :=
      hlt server (List.mem_cons_self _ _)
    have ih1 := ih (fun s hs => hlt s (List.mem_cons_of_mem _ hs))
    cases hlive : isAlive server <;>
      simp [leastConnectionsLoop, List.find?, hlive, h1, ih1]

theorem leastConnectionsLoop_none_of_dead (isAlive : Server → Bool)
    (activeConnections : Server → Option Int) (leastConnections : Int) (servers : List Server)
    (hdead : ∀ s ∈ servers, isAlive s = false) :
    leastConnectionsLoop isAlive activeConnections leastConnections servers = none := by
  induction servers with
  | nil => rfl
  | cons server rest ih =>
    have h1 : isAlive server = false := hdead server (List.mem_cons_self _ _)
    have ih1 := ih (fun s hs => hdead s (List.mem_cons_of_mem _ hs))
    simp [leastConnectionsLoop, h1, ih1]

theorem firstServer_eq (lb : LoadBalancer) (hne : lb.servers ≠ []) :
    firstServer lb = Outcome.ok (lb.servers.head hne, lb) := by
  obtain ⟨port, c, servers, conns⟩ := lb
  cases servers with
  | nil => exact absurd rfl hne
  | cons server rest => rfl

/-- C1 (the code departs from the claim): on the pool `[A, B, C]`, all live,
with counts `{A:3, B:1, C:1}`, the least-connections branch returns `A`, the
first live backend, although `B` is live with a strictly smaller count. -/
theorem C1_least_connections_returns_first_live :
    getNextAvailableServer (some leastConnConfig) allLive 0 lbABC311
        = Outcome.ok (srvA, lbABC311)
      ∧ lbABC311.count srvA = 3 ∧ lbABC311.count srvB = 1 ∧ lbABC311.count srvC = 1
      ∧ srvB ∈ lbABC311.servers ∧ allLive srvB = true
      ∧ lbABC311.count srvB < lbABC311.count srvA ∧ srvA ≠ srvB := by
  refine ⟨rfl, rfl, rfl, rfl, ?_, rfl, ?_, ?_⟩ <;> decide

/-- C5 as stated fails: on the pool `[A, B]` with both backends non-live the
least-connections branch returns the backend `A` of the pool. -/
theorem C5_counterexample_returns_dead_backend :
    getNextAvailableServer (some leastConnConfig) allDead 0 lbAB = Outcome.ok (srvA, lbAB)
      ∧ srvA ∈ lbAB.servers ∧ allDead srvA = false := by
  refine ⟨rfl, ?_, rfl⟩
  decide

/-- C5 (amended): when every backend of a non-empty pool is non-live, the
least-connections branch returns `servers[0]`, for every count map and every
probe budget, and leaves the state as it was. -/
theorem C5_least_connections_all_dead_returns_first (cfg : Config) (isAlive : Server → Bool)
    (fuel : Nat) (lb : LoadBalancer) (halg : cfg.algorithm = "least-connections")
    (hne : lb.servers ≠ []) (hdead : ∀ s ∈ lb.servers, isAlive s = false) :
    getNextAvailableServer (some cfg) isAlive fuel lb
      = Outcome.ok (lb.servers.head hne, lb) := by
  have hrr : ¬ (cfg.algorithm = "round-robin") := by rw [halg]; decide
  simp only [getNextAvailableServer, hrr, halg, if_true, if_false,
    leastConnectionsLoop_none_of_dead isAlive lb.activeConnections maxInt64 lb.servers hdead]
  exact firstServer_eq lb hne

theorem C5_least_connections_all_dead_returns_first_witness :
    getNextAvailableServer (some leastConnConfig) allDead 7 lbAB
      = Outcome.ok (lbAB.servers.head (by decide), lbAB) :=
  C5_least_connections_all_dead_returns_first leastConnConfig allDead 7 lbAB rfl (by decide)
    (fun _ _ => rfl)

/-- C10: with every count of the pool below `math.MaxInt64`, the
least-connections branch returns the first live backend in pool order (the
answer does not mention the counts), returns `servers[0]` when no backend is
live, and hands back the state unchanged (cursor and counts included). -/
theorem C10_least_connections_is_first_live (cfg : Config) (isAlive : Server → Bool)
    (fuel : Nat) (lb : LoadBalancer) (halg : cfg.algorithm = "least-connections")
    (hne : lb.servers ≠ []) (hlt : ∀ s ∈ lb.servers, lb.count s < maxInt64) :
    getNextAvailableServer (some cfg) isAlive fuel lb
        = Outcome.ok ((lb.servers.find? isAlive).getD (lb.servers.head hne), lb)
      ∧ ((∀ s ∈ lb.servers, isAlive s = false) →
          getNextAvailableServer (some cfg) isAlive fuel lb
            = Outcome.ok (lb.servers.head hne, lb)) := by
  have hrr : ¬ (cfg.algorithm = "round-robin") := by rw [halg]; decide
  have hmain : getNextAvailableServer (some cfg) isAlive fuel lb
      = Outcome.ok ((lb.servers.find? isAlive).getD (lb.servers.head hne), lb) := by
    simp only [getNextAvailableServer, hrr, halg, if_true, if_false,
      leastConnectionsLoop_eq_find isAlive lb.activeConnections maxInt64 lb.servers hlt]
    cases hf : lb.servers.find? isAlive with
    | none => simpa using firstServer_eq lb hne
    | some s => simp
  refine ⟨hmain, fun hdead => ?_⟩
  have hnone : lb.servers.find? isAlive = none := by
    rw [List.find?_eq_none]
    intro s hs
    simp [hdead s hs]
  simpa [hnone] using hmain

theorem C10_least_connections_is_first_live_witness :
    getNextAvailableServer (some leastConnConfig) onlyBDead 0 lbABC311
        = Outcome.ok ((lbABC311.servers.find? onlyBDead).getD
            (lbABC311.servers.head (by decide)), lbABC311)
      ∧ ((∀ s ∈ lbABC311.servers, onlyBDead s = false) →
          getNextAvailableServer (some leastConnConfig) onlyBDead 0 lbABC311
            = Outcome.ok (lbABC311.servers.head (by decide), lbABC311)) :=
  C10_least_connections_is_first_live leastConnConfig onlyBDead 0 lbABC311 rfl (by decide)
    (by
      intro s hs
      simp only [lbABC311, poolABC, List.mem_cons, List.mem_singleton, List.not_mem_nil,
        or_false] at hs
      rcases hs with h | h | h <;> subst h <;> decide)

/-! ## Round-robin -/

theorem wrapInt_of_fits (x : Int) (h0 : minInt64 ≤ x) (h1 : x ≤ maxInt64) : wrapInt x = x := by
  unfold wrapInt
  unfold minInt64 at h0
  unfold maxInt64 at h1
  omega

theorem poolAt_isSome (servers : List Server) (hne : servers ≠ []) (i : Nat) :
    ∃ s, poolAt servers i = some s ∧ s ∈ servers := by
  have hpos : 0 < servers.length := List.length_pos.mpr hne
  have hlt : i % servers.length < servers.length := Nat.mod_lt _ hpos
  refine ⟨servers[i % servers.length], ?_, List.getElem_mem _⟩
  simp [poolAt, List.getElem?_eq_getElem hlt]

theorem serverAt_natCast (servers : List Server) (hne : servers ≠ []) (c : Nat) (s : Server)
    (hs : poolAt servers c = some s) : serverAt servers (c : Int) = Outcome.ok s := by
  have hpos : 0 < servers.length := List.length_pos.mpr hne
  have hlen : servers.length ≠ 0 := Nat.pos_iff_ne_zero.mp hpos
  have htm : Int.tmod (c : Int) (servers.length : Int) = ((c % servers.length : Nat) : Int) :=
    (Int.ofNat_tmod c servers.length).symm
  have hnn : ¬ (((c % servers.length : Nat) : Int) < 0) := by omega
  unfold poolAt at hs
  simp only [serverAt, hlen, if_false, htm, hnn, Int.toNat_ofNat, hs]

theorem serverAt_mem (servers : List Server) (c : Int) (s : Server)
    (h : serverAt servers c = Outcome.ok s) : s ∈ servers := by
  unfold serverAt at h
  split at h
  · cases h
  · simp only at h
    split at h
    · cases h
    · split at h
      · rename_i server hget
        cases h
        exact List.getElem?_mem hget
      · cases h

theorem roundRobin_scan (isAlive : Server → Bool) (k : Nat) :
    ∀ (c : Nat) (lb : LoadBalancer) (s : Server) (fuel : Nat),
      lb.servers ≠ [] → lb.roundRobinCount = (c : Int) → (c : Int) + k < maxInt64 →
      (∀ j, j < k → ∀ t, poolAt lb.servers (c + j) = some t → isAlive t = false) →
      poolAt lb.servers (c + k) = some s → isAlive s = true → k < fuel →
      roundRobin isAlive fuel lb
        = Outcome.ok (s, { lb with roundRobinCount := ((c + k + 1 : Nat) : Int) }) := by
  induction k with
  | zero =>
    intro c lb s fuel hne hc hfit _ hs hlive hfuel
    obtain ⟨fuel, rfl⟩ : ∃ f, fuel = f + 1 := ⟨fuel - 1, by omega⟩
    have hat : serverAt lb.servers lb.roundRobinCount = Outcome.ok s := by
      rw [hc]; exact serverAt_natCast lb.servers hne c s (by simpa using hs)
    have hw : wrapInt (lb.roundRobinCount + 1) = ((c + 0 + 1 : Nat) : Int) := by
      rw [hc, wrapInt_of_fits] <;> simp only [minInt64, maxInt64] at * <;> omega
    simp only [roundRobin, hat, hlive, if_true, hw]
  | succ k ih =>
    intro c lb s fuel hne hc hfit hdead hs hlive hfuel
    obtain ⟨fuel, rfl⟩ : ∃ f, fuel = f + 1 := ⟨fuel - 1, by omega⟩
    obtain ⟨t, ht, _⟩ := poolAt_isSome lb.servers hne c
    have htdead : isAlive t = false := hdead 0 (Nat.succ_pos k) t (by simpa using ht)
    have hat : serverAt lb.servers lb.roundRobinCount = Outcome.ok t := by
      rw [hc]; exact serverAt_natCast lb.servers hne c t ht
    have hw : wrapInt (lb.roundRobinCount + 1) = ((c + 1 : Nat) : Int) := by
      rw [hc, wrapInt_of_fits] <;> simp only [minInt64, maxInt64] at * <;> omega
    simp only [roundRobin, hat, htdead, hw]
    have hnext := ih (c + 1) { lb with roundRobinCount := ((c + 1 : Nat) : Int) } s fuel hne rfl
      (by simp only [maxInt64] at *; omega)
      (fun j hj t' ht' => hdead (j + 1) (by omega) t' (by
        have : c + (j + 1) = c + 1 + j := by omega
        rw [this]; exact ht'))
      (by
        have : c + 1 + k = c + (k + 1) := by omega
        rw [this]; exact hs)
      hlive (by omega)
    have hidx : c + 1 + k + 1 = c + (k + 1) + 1 := by omega
    rw [hidx] at hnext
    simpa using hnext

theorem roundRobin_never_returns_of_dead (isAlive : Server → Bool) (fuel : Nat) :
    ∀ (lb : LoadBalancer), (∀ s ∈ lb.servers, isAlive s = false) →
      ∀ r, roundRobin isAlive fuel lb ≠ Outcome.ok r := by
  induction fuel with
  | zero =>
    intro lb _ r h
    unfold roundRobin at h
    split at h <;> cases h
  | succ fuel ih =>
    intro lb hdead r h
    unfold roundRobin at h
    split at h
    · rename_i server hat
      have hmem := serverAt_mem _ _ _ hat
      simp only [hdead server hmem, Bool.false_eq_true, if_false] at h
      have hno := ih { lb with roundRobinCount := wrapInt (lb.roundRobinCount + 1) } hdead r
      exact hno h
    · cases h
    · cases h

theorem roundRobin_keeps_counts (isAlive : Server → Bool) (fuel : Nat) :
    ∀ (lb : LoadBalancer) (s : Server) (lb1 : LoadBalancer),
      roundRobin isAlive fuel lb = Outcome.ok (s, lb1) →
      lb1.activeConnections = lb.activeConnections ∧ lb1.servers = lb.servers
        ∧ lb1.port = lb.port := by
  induction fuel with
  | zero =>
    intro lb s lb1 h
    unfold roundRobin at h
    split at h <;> cases h
  | succ fuel ih =>
    intro lb s lb1 h
    unfold roundRobin at h
    split at h
    · rename_i server hat
      split at h
      · cases h
        exact ⟨rfl, rfl, rfl⟩
      · have hkeep := ih { lb with roundRobinCount := wrapInt (lb.roundRobinCount + 1) } s lb1 h
        exact hkeep
    · cases h
    · cases h

theorem exists_first_live (isAlive : Server → Bool) (servers : List Server) (c : Nat)
    (hlive : ∃ s ∈ servers, isAlive s = true) :
    ∃ k s, k < servers.length ∧ poolAt servers (c + k) = some s ∧ isAlive s = true
      ∧ ∀ j, j < k → ∀ t, poolAt servers (c + j) = some t → isAlive t = false := by
  obtain ⟨s, hs, hslive⟩ := hlive
  obtain ⟨i, hi⟩ := List.mem_iff_getElem?.mp hs
  obtain ⟨hilt, -⟩ := List.getElem?_eq_some.mp hi
  have hpos : 0 < servers.length := by omega
  have hr : c % servers.length < servers.length := Nat.mod_lt _ hpos
  have hex : ∃ j, j < servers.length ∧ (poolAt servers (c + j)).map isAlive = some true := by
    by_cases hcase : c % servers.length ≤ i
    · refine ⟨i - c % servers.length, by omega, ?_⟩
      have hidx : (c + (i - c % servers.length)) % servers.length = i := by
        rw [Nat.add_mod, Nat.mod_eq_of_lt (by omega : i - c % servers.length < servers.length)]
        have : c % servers.length + (i - c % servers.length) = i := by omega
        rw [this, Nat.mod_eq_of_lt hilt]
      simp [poolAt, hidx, hi, hslive]
    · refine ⟨i + servers.length - c % servers.length, by omega, ?_⟩
      have hidx : (c + (i + servers.length - c % servers.length)) % servers.length = i := by
        rw [Nat.add_mod, Nat.mod_eq_of_lt
          (by omega : i + servers.length - c % servers.length < servers.length)]
        have : c % servers.length + (i + servers.length - c % servers.length)
            = i + servers.length := by omega
        rw [this, Nat.add_mod_right, Nat.mod_eq_of_lt hilt]
      simp [poolAt, hidx, hi, hslive]
  have hex2 : ∃ j, (poolAt servers (c + j)).map isAlive = some true :=
    hex.elim fun j hj => ⟨j, hj.2⟩
  obtain ⟨j0, hj0lt, hj0⟩ := hex
  have hspec := Nat.find_spec hex2
  have hle : Nat.find hex2 ≤ j0 := Nat.find_min' hex2 hj0
  rw [Option.map_eq_some'] at hspec
  obtain ⟨t, hp, hl⟩ := hspec
  refine ⟨Nat.find hex2, t, by omega, hp, hl, ?_⟩
  intro j hj u hu
  have hnot := Nat.find_min hex2 hj
  cases hul : isAlive u with
  | false => rfl
  | true => exact absurd (by simp [hu, hul]) hnot

theorem cyclicWindow_append (servers : List Server) (a : Nat) :
    ∀ (c b : Nat), cyclicWindow servers c (a + b)
      = cyclicWindow servers c a ++ cyclicWindow servers (c + a) b := by
  induction a with
  | zero => intro c b; simp [cyclicWindow]
  | succ a ih =>
    intro c b
    have h1 : a + 1 + b = (a + b) + 1 := by omega
    have h2 : c + (a + 1) = c + 1 + a := by omega
    rw [h1, h2]
    simp [cyclicWindow, ih (c + 1) b]

theorem cyclicWindow_one (servers : List Server) (c : Nat) (s : Server)
    (hs : poolAt servers c = some s) : cyclicWindow servers c 1 = [s] := by
  simp [cyclicWindow, hs]

theorem mem_cyclicWindow (servers : List Server) (m : Nat) :
    ∀ (c : Nat) (t : Server), t ∈ cyclicWindow servers c m →
      ∃ j, j < m ∧ poolAt servers (c + j) = some t := by
  induction m with
  | zero => intro c t h; simp [cyclicWindow] at h
  | succ m ih =>
    intro c t h
    simp only [cyclicWindow, List.mem_append, Option.mem_toList, Option.mem_def] at h
    rcases h with h | h
    · exact ⟨0, Nat.succ_pos m, by simpa using h⟩
    · obtain ⟨j, hj, hp⟩ := ih (c + 1) t h
      refine ⟨j + 1, by omega, ?_⟩
      have : c + (j + 1) = c + 1 + j := by omega
      rw [this]; exact hp

theorem getElem?_cyclicWindow (servers : List Server) (hne : servers ≠ []) (m : Nat) :
    ∀ (c k : Nat), k < m → (cyclicWindow servers c m)[k]? = poolAt servers (c + k) := by
  induction m with
  | zero => intro c k hk; omega
  | succ m ih =>
    intro c k hk
    obtain ⟨s, hs, _⟩ := poolAt_isSome servers hne c
    simp only [cyclicWindow, hs, Option.toList_some, List.singleton_append]
    cases k with
    | zero => simp [hs]
    | succ k =>
      have : c + (k + 1) = c + 1 + k := by omega
      rw [this, List.getElem?_cons_succ]
      exact ih (c + 1) k (by omega)

theorem length_cyclicWindow (servers : List Server) (hne : servers ≠ []) (m : Nat) :
    ∀ (c : Nat), (cyclicWindow servers c m).length = m := by
  induction m with
  | zero => intro c; rfl
  | succ m ih =>
    intro c
    obtain ⟨s, hs, _⟩ := poolAt_isSome servers hne c
    simp [cyclicWindow, hs, ih (c + 1)]

theorem cyclicWindow_eq_rotate (servers : List Server) (hne : servers ≠ []) (c : Nat) :
    cyclicWindow servers c servers.length = servers.rotate (c % servers.length) := by
  apply List.ext_getElem?
  intro k
  by_cases hk : k < servers.length
  · rw [getElem?_cyclicWindow servers hne _ c k hk, List.getElem?_rotate hk]
    unfold poolAt
    congr 1
    rw [Nat.add_comm k, Nat.mod_add_mod]
  · have h1 : (cyclicWindow servers c servers.length).length ≤ k := by
      rw [length_cyclicWindow servers hne]; omega
    have h2 : (servers.rotate (c % servers.length)).length ≤ k := by
      rw [List.length_rotate]; omega
    rw [List.getElem?_eq_none h1, List.getElem?_eq_none h2]

theorem getNext_roundRobin (cfg : Config) (isAlive : Server → Bool) (fuel : Nat)
    (lb : LoadBalancer) (halg : cfg.algorithm = "round-robin") :
    getNextAvailableServer (some cfg) isAlive fuel lb = roundRobin isAlive fuel lb := by
  simp [getNextAvailableServer, halg]

theorem setCursor_self (lb : LoadBalancer) (c : Int) (hc : lb.roundRobinCount = c) :
    { lb with roundRobinCount := c } = lb := by
  cases lb
  simp only at hc
  subst hc
  rfl

theorem selectMany_allLive (cfg : Config) (isAlive : Server → Bool) (fuel : Nat)
    (halg : cfg.algorithm = "round-robin") (hfuel : 0 < fuel) (n : Nat) :
    ∀ (c : Nat) (lb : LoadBalancer), lb.servers ≠ [] →
      (∀ s ∈ lb.servers, isAlive s = true) → lb.roundRobinCount = (c : Int) →
      (c : Int) ≤ maxInt64 → (c : Int) + n ≤ maxInt64 + 1 →
      selectMany (some cfg) isAlive fuel n lb
        = Outcome.ok (cyclicWindow lb.servers c n,
            { lb with roundRobinCount := wrapInt ((c : Int) + n) }) := by
  induction n with
  | zero =>
    intro c lb _ _ hc hfit _
    have hw : wrapInt ((c : Int) + (0 : Nat)) = (c : Int) := by
      rw [wrapInt_of_fits] <;> simp only [minInt64, maxInt64] at * <;> omega
    rw [hw, setCursor_self lb _ hc]
    rfl
  | succ n ih =>
    intro c lb hne hall hc hfit hfitn
    obtain ⟨fuel, rfl⟩ : ∃ f, fuel = f + 1 := ⟨fuel - 1, by omega⟩
    obtain ⟨s, hs, hmem⟩ := poolAt_isSome lb.servers hne c
    have hat : serverAt lb.servers (c : Int) = Outcome.ok s :=
      serverAt_natCast lb.servers hne c s hs
    have hfirst : getNextAvailableServer (some cfg) isAlive (fuel + 1) lb
        = Outcome.ok (s, { lb with roundRobinCount := wrapInt ((c : Int) + 1) }) := by
      rw [getNext_roundRobin cfg isAlive _ lb halg]
      simp only [roundRobin, hc, hat, hall s hmem, if_true]
    cases n with
    | zero =>
      simp only [selectMany, hfirst, cyclicWindow, hs, Option.toList_some, List.append_nil]
      rfl
    | succ n =>
      have hw : wrapInt ((c : Int) + 1) = ((c + 1 : Nat) : Int) := by
        rw [wrapInt_of_fits] <;> simp only [minInt64, maxInt64] at * <;> omega
      have hrest := ih (c + 1) { lb with roundRobinCount := ((c + 1 : Nat) : Int) } hne hall rfl
        (by simp only [maxInt64] at *; omega) (by simp only [maxInt64] at *; omega)
      rw [hw] at hfirst
      have hsum : (((c + 1 : Nat) : Int) + ((n + 1 : Nat) : Int))
          = ((c : Int) + ((n + 1 + 1 : Nat) : Int)) := by omega
      simp only [hsum] at hrest
      rw [selectMany, hfirst]
      simp only [hrest]
      simp [cyclicWindow, hs]

theorem filter_cyclicWindow_dead (isAlive : Server → Bool) (servers : List Server) (c k : Nat)
    (hdead : ∀ j, j < k → ∀ t, poolAt servers (c + j) = some t → isAlive t = false) :
    (cyclicWindow servers c k).filter isAlive = [] := by
  rw [List.filter_eq_nil_iff]
  intro t ht
  obtain ⟨j, hj, hp⟩ := mem_cyclicWindow servers k c t ht
  simp [hdead j hj t hp]

theorem filter_cyclicWindow_first (isAlive : Server → Bool) (servers : List Server)
    (c k m : Nat) (s : Server)
    (hdead : ∀ j, j < k → ∀ t, poolAt servers (c + j) = some t → isAlive t = false)
    (hs : poolAt servers (c + k) = some s) (hlive : isAlive s = true) :
    (cyclicWindow servers c (k + 1 + m)).filter isAlive
      = s :: (cyclicWindow servers (c + k + 1) m).filter isAlive := by
  rw [cyclicWindow_append servers (k + 1) c m, cyclicWindow_append servers k c 1,
    cyclicWindow_one servers (c + k) s hs]
  simp only [List.filter_append, filter_cyclicWindow_dead isAlive servers c k hdead,
    List.nil_append]
  have : c + (k + 1) = c + k + 1 := by omega
  rw [this]
  simp [List.filter, hlive]

theorem selectMany_cycles (cfg : Config) (isAlive : Server → Bool)
    (halg : cfg.algorithm = "round-robin") (n : Nat) :
    ∀ (c : Nat) (lb : LoadBalancer), (∃ s ∈ lb.servers, isAlive s = true) →
      lb.roundRobinCount = (c : Int) →
      ((c + n * lb.servers.length : Nat) : Int) ≤ maxInt64 →
      ∃ c', c + n ≤ c' ∧ c' ≤ c + n * lb.servers.length
        ∧ ((cyclicWindow lb.servers c (c' - c)).filter isAlive).length = n
        ∧ ∀ fuel, lb.servers.length ≤ fuel →
            selectMany (some cfg) isAlive fuel n lb
              = Outcome.ok ((cyclicWindow lb.servers c (c' - c)).filter isAlive,
                  { lb with roundRobinCount := (c' : Int) }) := by
  induction n with
  | zero =>
    intro c lb _ hc _
    refine ⟨c, by omega, by omega, by simp [cyclicWindow], ?_⟩
    intro fuel _
    rw [setCursor_self lb _ hc]
    simp [selectMany, cyclicWindow]
  | succ n ih =>
    intro c lb hlive hc hfit
    have hne : lb.servers ≠ [] := by
      obtain ⟨s, hs, _⟩ := hlive
      exact List.ne_nil_of_mem hs
    obtain ⟨k, s, hk, hs, hsl, hdead⟩ := exists_first_live isAlive lb.servers c hlive
    have hmul : (n + 1) * lb.servers.length = n * lb.servers.length + lb.servers.length :=
      Nat.succ_mul n _
    have hfit1 : (c : Int) + k < maxInt64 := by
      simp only [maxInt64] at *; omega
    have hcall : ∀ fuel, lb.servers.length ≤ fuel →
        getNextAvailableServer (some cfg) isAlive fuel lb
          = Outcome.ok (s, { lb with roundRobinCount := ((c + k + 1 : Nat) : Int) }) := by
      intro fuel hfuel
      rw [getNext_roundRobin cfg isAlive _ lb halg]
      exact roundRobin_scan isAlive k c lb s fuel hne hc hfit1 hdead hs hsl (by omega)
    obtain ⟨c', h1, h2, h3, h4⟩ := ih (c + k + 1)
      { lb with roundRobinCount := ((c + k + 1 : Nat) : Int) } hlive rfl
      (by simp only [maxInt64] at *; omega)
    simp only at h2 h3 h4
    have hsplit : c' - c = k + 1 + (c' - (c + k + 1)) := by omega
    have hwin := filter_cyclicWindow_first isAlive lb.servers c k (c' - (c + k + 1)) s
      hdead hs hsl
    rw [← hsplit] at hwin
    refine ⟨c', by omega, by omega, by rw [hwin, List.length_cons, h3], ?_⟩
    intro fuel hfuel
    rw [selectMany, hcall fuel hfuel]
    simp only [h4 fuel hfuel, hwin]

/-- C2 as stated fails: on the pool `[A, B, C]`, all live, starting with the
cursor at `math.MaxInt64`, the first call returns `B` and wraps the cursor to
`math.MinInt64`; the second call then indexes the pool at `-2` and panics, so
the window of three calls returns no list of backends, whatever the budget. -/
theorem C2_counterexample_cursor_overflow :
    lbABCAtMax.roundRobinCount = maxInt64
      ∧ getNextAvailableServer (some roundRobinConfig) allLive 1 lbABCAtMax
          = Outcome.ok (srvB, { lbABCAtMax with roundRobinCount := minInt64 })
      ∧ Int.tmod minInt64 3 = -2
      ∧ selectMany (some roundRobinConfig) allLive 1 3 lbABCAtMax
          = Outcome.panic "index out of range"
      ∧ ∀ fuel r, selectMany (some roundRobinConfig) allLive fuel 3 lbABCAtMax
          ≠ Outcome.ok r := by
  refine ⟨rfl, rfl, by decide, rfl, ?_⟩
  intro fuel r h
  cases fuel with
  | zero =>
    have hp : selectMany (some roundRobinConfig) allLive 0 3 lbABCAtMax = Outcome.running := rfl
    rw [hp] at h
    cases h
  | succ fuel =>
    have hp : selectMany (some roundRobinConfig) allLive (fuel + 1) 3 lbABCAtMax
        = Outcome.panic "index out of range" := rfl
    rw [hp] at h
    cases h

/-- C2 (amended): on a pool of `N ≥ 1` backends that are all live, from a
cursor `c ≥ 0` with `c + N ≤ math.MaxInt64 + 1`, `N` consecutive round-robin
calls return (with any budget of at least one probe per call) the pool rotated
by `c mod N`: the `k`-th call returns `servers[(c + k) mod N]`, and the list
returned is a permutation of the pool, so each backend is returned exactly
once. -/
theorem C2_round_robin_fairness (cfg : Config) (isAlive : Server → Bool) (lb : LoadBalancer)
    (c : Nat) (halg : cfg.algorithm = "round-robin") (hne : lb.servers ≠ [])
    (hall : ∀ s ∈ lb.servers, isAlive s = true) (hc : lb.roundRobinCount = (c : Int))
    (hfit : (c : Int) + lb.servers.length ≤ maxInt64 + 1) :
    (∀ fuel, 0 < fuel →
        selectMany (some cfg) isAlive fuel lb.servers.length lb
          = Outcome.ok (lb.servers.rotate (c % lb.servers.length),
              { lb with roundRobinCount := wrapInt ((c : Int) + lb.servers.length) }))
      ∧ (∀ k, k < lb.servers.length →
          (lb.servers.rotate (c % lb.servers.length))[k]?
            = lb.servers[(c + k) % lb.servers.length]?)
      ∧ (lb.servers.rotate (c % lb.servers.length)).Perm lb.servers := by
  have hpos : 0 < lb.servers.length := List.length_pos.mpr hne
  refine ⟨?_, ?_, List.rotate_perm _ _⟩
  · intro fuel hfuel
    rw [← cyclicWindow_eq_rotate lb.servers hne c]
    exact selectMany_allLive cfg isAlive fuel halg hfuel lb.servers.length c lb hne hall hc
      (by simp only [maxInt64] at *; omega) hfit
  · intro k hk
    rw [← cyclicWindow_eq_rotate lb.servers hne c,
      getElem?_cyclicWindow lb.servers hne _ c k hk]
    rfl

theorem C2_round_robin_fairness_witness :
    (∀ fuel, 0 < fuel →
        selectMany (some roundRobinConfig) allLive fuel lbABC311.servers.length
            { lbABC311 with roundRobinCount := 7 }
          = Outcome.ok (lbABC311.servers.rotate (7 % lbABC311.servers.length),
              { lbABC311 with roundRobinCount := wrapInt (((7 : Nat) : Int)
                + lbABC311.servers.length) }))
      ∧ (∀ k, k < lbABC311.servers.length →
          (lbABC311.servers.rotate (7 % lbABC311.servers.length))[k]?
            = lbABC311.servers[(7 + k) % lbABC311.servers.length]?)
      ∧ (lbABC311.servers.rotate (7 % lbABC311.servers.length)).Perm lbABC311.servers :=
  C2_round_robin_fairness roundRobinConfig allLive { lbABC311 with roundRobinCount := 7 } 7
    rfl (by decide) (fun _ _ => rfl) rfl (by decide)

/-- C3 as stated fails: on the pool `[A, B, C]` with only `B` non-live and the
cursor at `math.MaxInt64`, the scan starts at index `1` (backend `B`), wraps
the cursor to `math.MinInt64` and panics on the index `-2`; the live backend
`C` is never returned, whatever the budget. -/
theorem C3_counterexample_cursor_overflow :
    lbABCAtMax.roundRobinCount = maxInt64
      ∧ poolAt lbABCAtMax.servers 9223372036854775807 = some srvB
      ∧ onlyBDead srvB = false ∧ srvC ∈ lbABCAtMax.servers ∧ onlyBDead srvC = true
      ∧ getNextAvailableServer (some roundRobinConfig) onlyBDead 1 lbABCAtMax
          = Outcome.panic "index out of range"
      ∧ ∀ fuel r, getNextAvailableServer (some roundRobinConfig) onlyBDead fuel lbABCAtMax
          ≠ Outcome.ok r := by
  refine ⟨rfl, rfl, rfl, by decide, rfl, rfl, ?_⟩
  intro fuel r h
  match fuel, h with
  | 0, h =>
    have hp : getNextAvailableServer (some roundRobinConfig) onlyBDead 0 lbABCAtMax
        = Outcome.running := rfl
    rw [hp] at h
    cases h
  | 1, h =>
    have hp : getNextAvailableServer (some roundRobinConfig) onlyBDead 1 lbABCAtMax
        = Outcome.panic "index out of range" := rfl
    rw [hp] at h
    cases h
  | fuel + 2, h =>
    have hp : getNextAvailableServer (some roundRobinConfig) onlyBDead (fuel + 2) lbABCAtMax
        = Outcome.panic "index out of range" := rfl
    rw [hp] at h
    cases h

/-- C3 (amended): on a pool of size `N` with at least one live backend, from a
cursor `c ≥ 0` with `c + N ≤ math.MaxInt64`, the round-robin branch returns
(given a budget of more than `k` probes) the backend at the first live cyclic
position `c + k`, `k < N`, after skipping `k` non-live positions, and leaves
the cursor at `c + k + 1`.  Consequently, while `c + n * N ≤ math.MaxInt64`,
`n` consecutive selections return exactly the live backends met on the cyclic
positions `c, ..., c' - 1`, in that order, where `c'` is the final cursor. -/
theorem C3_round_robin_postcondition (cfg : Config) (isAlive : Server → Bool)
    (lb : LoadBalancer) (c : Nat) (halg : cfg.algorithm = "round-robin")
    (hlive : ∃ s ∈ lb.servers, isAlive s = true) (hc : lb.roundRobinCount = (c : Int))
    (hfit : (c : Int) + lb.servers.length ≤ maxInt64) :
    (∃ k s, k < lb.servers.length ∧ poolAt lb.servers (c + k) = some s ∧ isAlive s = true
        ∧ (∀ j, j < k → ∀ t, poolAt lb.servers (c + j) = some t → isAlive t = false)
        ∧ ∀ fuel, k < fuel →
            getNextAvailableServer (some cfg) isAlive fuel lb
              = Outcome.ok (s, { lb with roundRobinCount := (c : Int) + k + 1 }))
      ∧ (∀ n, ((c + n * lb.servers.length : Nat) : Int) ≤ maxInt64 →
          ∃ c', c + n ≤ c' ∧ c' ≤ c + n * lb.servers.length
            ∧ ((cyclicWindow lb.servers c (c' - c)).filter isAlive).length = n
            ∧ ∀ fuel, lb.servers.length ≤ fuel →
                selectMany (some cfg) isAlive fuel n lb
                  = Outcome.ok ((cyclicWindow lb.servers c (c' - c)).filter isAlive,
                      { lb with roundRobinCount := (c' : Int) })) := by
  have hne : lb.servers ≠ [] := by
    obtain ⟨s, hs, _⟩ := hlive
    exact List.ne_nil_of_mem hs
  refine ⟨?_, fun n hn => selectMany_cycles cfg isAlive halg n c lb hlive hc hn⟩
  obtain ⟨k, s, hk, hs, hsl, hdead⟩ := exists_first_live isAlive lb.servers c hlive
  refine ⟨k, s, hk, hs, hsl, hdead, ?_⟩
  intro fuel hfuel
  rw [getNext_roundRobin cfg isAlive _ lb halg,
    roundRobin_scan isAlive k c lb s fuel hne hc (by simp only [maxInt64] at *; omega)
      hdead hs hsl hfuel]
  simp

theorem C3_round_robin_postcondition_witness :
    (∃ k s, k < lbABC311.servers.length ∧ poolAt lbABC311.servers (0 + k) = some s
        ∧ onlyBDead s = true
        ∧ (∀ j, j < k → ∀ t, poolAt lbABC311.servers (0 + j) = some t → onlyBDead t = false)
        ∧ ∀ fuel, k < fuel →
            getNextAvailableServer (some roundRobinConfig) onlyBDead fuel lbABC311
              = Outcome.ok (s, { lbABC311 with roundRobinCount := ((0 : Nat) : Int) + k + 1 }))
      ∧ (∀ n, ((0 + n * lbABC311.servers.length : Nat) : Int) ≤ maxInt64 →
          ∃ c', 0 + n ≤ c' ∧ c' ≤ 0 + n * lbABC311.servers.length
            ∧ ((cyclicWindow lbABC311.servers 0 (c' - 0)).filter onlyBDead).length = n
            ∧ ∀ fuel, lbABC311.servers.length ≤ fuel →
                selectMany (some roundRobinConfig) onlyBDead fuel n lbABC311
                  = Outcome.ok ((cyclicWindow lbABC311.servers 0 (c' - 0)).filter onlyBDead,
                      { lbABC311 with roundRobinCount := (c' : Int) })) :=
  C3_round_robin_postcondition roundRobinConfig onlyBDead lbABC311 0 rfl
    ⟨srvA, by decide, by decide⟩ rfl (by decide)

/-- C4 (the code departs from the claim): on the pool `[A, B]` with both
backends non-live the round-robin branch is still probing after two probes
(and after three), and with no budget whatever does it return: it reports no
"no backend available" outcome. -/
theorem C4_round_robin_all_dead_never_returns :
    (∀ s ∈ lbAB.servers, allDead s = false)
      ∧ getNextAvailableServer (some roundRobinConfig) allDead 2 lbAB = Outcome.running
      ∧ getNextAvailableServer (some roundRobinConfig) allDead 3 lbAB = Outcome.running
      ∧ ∀ fuel r, getNextAvailableServer (some roundRobinConfig) allDead fuel lbAB
          ≠ Outcome.ok r := by
  refine ⟨fun _ _ => rfl, rfl, rfl, ?_⟩
  intro fuel r
  rw [getNext_roundRobin roundRobinConfig allDead fuel lbAB rfl]
  exact roundRobin_never_returns_of_dead allDead fuel lbAB (fun _ _ => rfl) r

/-! ## Connection accounting -/

theorem count_increment_self (lb : LoadBalancer) (s : Server) :
    (incrementActiveConnections lb s).count s = wrapInt (lb.count s + 1) := by
  simp [incrementActiveConnections, LoadBalancer.count, connectionsOf]

theorem count_increment_other (lb : LoadBalancer) (s b : Server) (h : b ≠ s) :
    (incrementActiveConnections lb s).count b = lb.count b := by
  simp [incrementActiveConnections, LoadBalancer.count, connectionsOf, h]

theorem decrement_of_nonpos (lb : LoadBalancer) (s : Server) (h : lb.count s ≤ 0) :
    decrementActiveConnections lb s = lb := by
  have : ¬ (lb.count s > 0) := by omega
  simp [decrementActiveConnections, this]

theorem count_decrement_self (lb : LoadBalancer) (s : Server) (h : 0 < lb.count s) :
    (decrementActiveConnections lb s).count s = lb.count s - 1 := by
  have h' : lb.count s > 0 := h
  simp only [decrementActiveConnections, h', if_true]
  simp [LoadBalancer.count, connectionsOf]

theorem map_decrement_other (lb : LoadBalancer) (s b : Server) (h : b ≠ s) :
    (decrementActiveConnections lb s).activeConnections b = lb.activeConnections b := by
  unfold decrementActiveConnections
  split
  · simp [h]
  · rfl

theorem count_decrement_other (lb : LoadBalancer) (s b : Server) (h : b ≠ s) :
    (decrementActiveConnections lb s).count b = lb.count b := by
  simp [LoadBalancer.count, connectionsOf, map_decrement_other lb s b h]

theorem count_NewLoadBalancer (port : String) (servers : List Server) (b : Server) :
    (NewLoadBalancer port servers).count b = 0 := by
  simp only [NewLoadBalancer, LoadBalancer.count, connectionsOf]
  induction servers with
  | nil => rfl
  | cons s rest ih =>
    simp only [zeroConnections]
    split
    · rfl
    · exact ih

theorem run_snoc (lb : LoadBalancer) (p : List Event) (e : Event) :
    run lb (p ++ [e]) = step (run lb p) e := by
  simp [run, List.foldl_append]

theorem run_cons (lb : LoadBalancer) (e : Event) (p : List Event) :
    run lb (e :: p) = run (step lb e) p := rfl

theorem accounting_tracks (port : String) (servers : List Server) (p : List Event) :
    (∀ q, q <+: p → ∀ b, q.count (Event.finish b) ≤ q.count (Event.start b)) →
    (∀ q, q <+: p → ∀ b, (inFlight q b : Int) ≤ maxInt64) →
    ∀ b, (run (NewLoadBalancer port servers) p).count b = (inFlight p b : Int) := by
  induction p using List.reverseRecOn with
  | nil =>
    intro _ _ b
    simp [run, inFlight, count_NewLoadBalancer]
  | append_singleton p e ih =>
    intro hm hfit b
    have hpre : ∀ q, q <+: p → q <+: p ++ [e] := fun q hq =>
      hq.trans (List.prefix_append p [e])
    have ihp := ih (fun q hq => hm q (hpre q hq)) (fun q hq => hfit q (hpre q hq))
    have hmp := hm p (List.prefix_append p [e])
    have hme := hm (p ++ [e]) (List.prefix_refl _)
    have hfe := hfit (p ++ [e]) (List.prefix_refl _)
    rw [run_snoc]
    cases e with
    | start s =>
      by_cases hb : b = s
      · subst hb
        have h1 := hmp b
        have h2 := hfe b
        simp only [inFlight, List.count_append, List.count_singleton, beq_self_eq_true,
          if_true] at h2 ⊢
        simp only [step, count_increment_self, ihp b, inFlight]
        have h3 : (if Event.start b == Event.finish b then 1 else 0) = 0 := by simp
        rw [h3] at h2 ⊢
        rw [wrapInt_of_fits] <;> simp only [minInt64, maxInt64] at * <;> omega
      · have h3 : (List.count (Event.start b) [Event.start s]) = 0 := by
          simp [List.count_singleton, Ne.symm hb]
        have h4 : (List.count (Event.finish b) [Event.start s]) = 0 := by
          simp [List.count_singleton]
        simp only [step, count_increment_other _ s b hb, ihp b, inFlight, List.count_append,
          h3, h4, Nat.add_zero]
    | finish s =>
      by_cases hb : b = s
      · subst hb
        have h1 := hme b
        have h3 : (List.count (Event.start b) [Event.finish b]) = 0 := by
          simp [List.count_singleton]
        have h4 : (List.count (Event.finish b) [Event.finish b]) = 1 := by
          simp [List.count_singleton]
        simp only [List.count_append, h3, h4, Nat.add_zero] at h1
        have hpos : 0 < (run (NewLoadBalancer port servers) p).count b := by
          rw [ihp b]; simp only [inFlight]; omega
        simp only [step, count_decrement_self _ b hpos, ihp b, inFlight, List.count_append,
          h3, h4, Nat.add_zero]
        omega
      · have h3 : (List.count (Event.start b) [Event.finish s]) = 0 := by
          simp [List.count_singleton]
        have h4 : (List.count (Event.finish b) [Event.finish s]) = 0 := by
          simp [List.count_singleton, Ne.symm hb]
        simp only [step, count_decrement_other _ s b hb, ihp b, inFlight, List.count_append,
          h3, h4, Nat.add_zero]

theorem run_replicate_start (s : Server) (n : Nat) :
    ∀ lb : LoadBalancer, (run lb (List.replicate (n + 1) (Event.start s))).count s
      = wrapInt (lb.count s + ((n + 1 : Nat) : Int)) := by
  induction n with
  | zero =>
    intro lb
    simp [run, step, count_increment_self]
  | succ n ih =>
    intro lb
    rw [List.replicate_succ, run_cons, ih, step, count_increment_self]
    unfold wrapInt
    push_cast
    omega

theorem inFlight_replicate_start (s : Server) (n : Nat) :
    inFlight (List.replicate n (Event.start s)) s = n := by
  have hnot : Event.finish s ∉ List.replicate n (Event.start s) := by
    intro hmem
    have := List.eq_of_mem_replicate hmem
    cases this
  unfold inFlight
  rw [List.count_eq_zero.mpr hnot, Nat.sub_zero]
  exact List.count_replicate_self _ _

theorem matched_replicate_start (s : Server) (n : Nat) :
    Matched (List.replicate n (Event.start s)) := by
  intro p hp b
  have hnot : Event.finish b ∉ p := by
    intro hmem
    have := List.eq_of_mem_replicate (hp.subset hmem)
    cases this
  rw [List.count_eq_zero.mpr hnot]
  exact Nat.zero_le _

/-- C6 as stated fails: a trace of `2^63` request starts for backend `A`, none
finished, is a well-matched sequence, yet from the all-zero counts of
`NewLoadBalancer` it leaves the count of `A` at `math.MinInt64`, which is
negative and differs from the `2^63` requests in flight. -/
theorem C6_counterexample_count_overflow :
    Matched floodTrace
      ∧ inFlight floodTrace srvA = 9223372036854775808
      ∧ (run lbA floodTrace).count srvA = minInt64
      ∧ (run lbA floodTrace).count srvA < 0 := by
  have hcount : (run lbA floodTrace).count srvA = minInt64 := by
    unfold floodTrace
    have h := run_replicate_start srvA 9223372036854775807 lbA
    have h0 : lbA.count srvA = 0 := count_NewLoadBalancer _ _ _
    rw [h0] at h
    have h2 : wrapInt (0 + ((9223372036854775807 + 1 : Nat) : Int)) = minInt64 := by decide
    exact h.trans h2
  refine ⟨?_, ?_, hcount, ?_⟩
  · unfold floodTrace
    exact matched_replicate_start srvA 9223372036854775808
  · unfold floodTrace
    exact inFlight_replicate_start srvA 9223372036854775808
  · rw [hcount]; decide

/-- C6 (amended): starting from the all-zero counts of `NewLoadBalancer`, for
every sequence of request starts and finishes in which each finish matches an
earlier unfinished start and no backend ever has more than `math.MaxInt64`
requests in flight, after every prefix each backend's count equals the number
of requests to it started and not finished; so it is not negative, and it is
`0` once all requests to the backend have finished. -/
theorem C6_accounting_tracks_in_flight (port : String) (servers : List Server)
    (trace : List Event) (hm : Matched trace)
    (hfit : ∀ p, p <+: trace → ∀ b, (inFlight p b : Int) ≤ maxInt64) :
    ∀ p, p <+: trace → ∀ b,
      (run (NewLoadBalancer port servers) p).count b = (inFlight p b : Int)
        ∧ 0 ≤ (run (NewLoadBalancer port servers) p).count b
        ∧ (inFlight p b = 0 → (run (NewLoadBalancer port servers) p).count b = 0) := by
  intro p hp b
  have h := accounting_tracks port servers p
    (fun q hq => hm q (hq.trans hp)) (fun q hq => hfit q (hq.trans hp)) b
  refine ⟨h, by rw [h]; exact Int.ofNat_nonneg _, fun h0 => by rw [h, h0]; rfl⟩

theorem inFlight_le_length (trace p : List Event) (hp : p <+: trace) (b : Server) :
    inFlight p b ≤ trace.length := by
  have h1 : p.count (Event.start b) ≤ p.length := List.count_le_length _ _
  have h2 : p.length ≤ trace.length := hp.length_le
  unfold inFlight
  omega

theorem matched_sampleTrace : Matched sampleTrace := by
  intro p hp b
  have hmem : p ∈ sampleTrace.inits := (List.mem_inits _ _).mpr hp
  have hAB : srvA ≠ srvB := by decide
  simp only [sampleTrace, List.inits, List.map, List.mem_cons, List.mem_singleton,
    List.not_mem_nil, or_false] at hmem
  rcases hmem with h | h | h | h | h | h <;> subst h <;>
    by_cases hA : srvA = b <;> by_cases hB : srvB = b <;>
    simp [List.count_cons, hA, hB]

theorem C6_accounting_tracks_in_flight_witness :
    Matched sampleTrace
      ∧ (run (NewLoadBalancer "8080" poolAB) sampleTrace).count srvA
          = (inFlight sampleTrace srvA : Int)
      ∧ 0 ≤ (run (NewLoadBalancer "8080" poolAB) sampleTrace).count srvA
      ∧ (inFlight sampleTrace srvA = 0 →
          (run (NewLoadBalancer "8080" poolAB) sampleTrace).count srvA = 0) :=
  ⟨matched_sampleTrace,
    C6_accounting_tracks_in_flight "8080" poolAB sampleTrace matched_sampleTrace
      (fun p hp b => by
        have h := inFlight_le_length sampleTrace p hp b
        have h5 : sampleTrace.length = 5 := rfl
        simp only [maxInt64]
        omega)
      sampleTrace (List.prefix_refl _) srvA⟩

theorem step_keeps_nonneg (lb : LoadBalancer) (e : Event) (hnn : ∀ b, 0 ≤ lb.count b)
    (hfit : ∀ s, e = Event.start s → lb.count s < maxInt64) :
    ∀ b, 0 ≤ (step lb e).count b := by
  intro b
  cases e with
  | start s =>
    by_cases hb : b = s
    · subst hb
      have h1 := hnn b
      have h2 := hfit b rfl
      simp only [step, count_increment_self]
      rw [wrapInt_of_fits] <;> simp only [minInt64, maxInt64] at * <;> omega
    · simp only [step, count_increment_other lb s b hb]
      exact hnn b
  | finish s =>
    by_cases hb : b = s
    · subst hb
      by_cases hpos : 0 < lb.count b
      · simp only [step, count_decrement_self lb b hpos]
        omega
      · simp only [step, decrement_of_nonpos lb b (by omega)]
        exact hnn b
    · simp only [step, count_decrement_other lb s b hb]
      exact hnn b

theorem run_keeps_nonneg (trace : List Event) :
    ∀ lb : LoadBalancer, (∀ b, 0 ≤ lb.count b) → incrementsFit lb trace →
      ∀ p, p <+: trace → ∀ b, 0 ≤ (run lb p).count b := by
  induction trace with
  | nil =>
    intro lb hnn _ p hp b
    rw [List.prefix_nil.mp hp]
    exact hnn b
  | cons e rest ih =>
    intro lb hnn hfit p hp b
    cases p with
    | nil => exact hnn b
    | cons e' p' =>
      obtain ⟨he, hp'⟩ := List.cons_prefix_cons.mp hp
      subst he
      rw [run_cons]
      cases e' with
      | start s =>
        simp only [incrementsFit] at hfit
        exact ih (step lb (Event.start s))
          (step_keeps_nonneg lb _ hnn (fun s' hs' => by cases hs'; exact hfit.1))
          hfit.2 p' hp' b
      | finish s =>
        simp only [incrementsFit] at hfit
        exact ih (step lb (Event.finish s))
          (step_keeps_nonneg lb _ hnn (fun s' hs' => by cases hs'))
          hfit p' hp' b

/-- C7 as stated fails: in the state where the count of `A` is
`math.MaxInt64` every count is non-negative, and one increment of `A` leaves
its count at `math.MinInt64`. -/
theorem C7_counterexample_increment_overflow :
    (∀ b, 0 ≤ lbAFull.count b)
      ∧ (run lbAFull [Event.start srvA]).count srvA = minInt64
      ∧ (run lbAFull [Event.start srvA]).count srvA < 0 := by
  refine ⟨?_, rfl, by decide⟩
  intro b
  by_cases hb : b = srvA
  · subst hb; decide
  · simp [lbAFull, LoadBalancer.count, connectionsOf, hb]

/-- C7 (amended): `decrementActiveConnections(b)` leaves the whole state
unchanged when the count of `b` is `0` and otherwise (count positive) lowers
the count of `b` by exactly `1` and touches no other entry.  Hence, from
non-negative counts, under any sequence of increments and decrements, matched
or not, in which no increment is applied to a count that has reached
`math.MaxInt64`, every count is non-negative after every prefix. -/
theorem C7_decrement_floors_at_zero (lb : LoadBalancer) (trace : List Event)
    (hnn : ∀ b, 0 ≤ lb.count b) (hfit : incrementsFit lb trace) :
    (∀ b, lb.count b = 0 → decrementActiveConnections lb b = lb)
      ∧ (∀ b, 0 < lb.count b →
          (decrementActiveConnections lb b).count b = lb.count b - 1
            ∧ ∀ b', b' ≠ b →
                (decrementActiveConnections lb b).activeConnections b'
                  = lb.activeConnections b')
      ∧ (∀ p, p <+: trace → ∀ b, 0 ≤ (run lb p).count b) := by
  refine ⟨fun b h0 => decrement_of_nonpos lb b (by omega), fun b hpos => ?_,
    run_keeps_nonneg trace lb hnn hfit⟩
  exact ⟨count_decrement_self lb b hpos, fun b' hb' => map_decrement_other lb b b' hb'⟩

theorem C7_decrement_floors_at_zero_witness :
    (∀ b, lbAB.count b = 0 → decrementActiveConnections lbAB b = lbAB)
      ∧ (∀ b, 0 < lbAB.count b →
          (decrementActiveConnections lbAB b).count b = lbAB.count b - 1
            ∧ ∀ b', b' ≠ b →
                (decrementActiveConnections lbAB b).activeConnections b'
                  = lbAB.activeConnections b')
      ∧ (∀ p, p <+: strayTrace → ∀ b, 0 ≤ (run lbAB p).count b) :=
  C7_decrement_floors_at_zero lbAB strayTrace
    (fun b => le_of_eq (count_NewLoadBalancer "8080" poolAB b).symm)
    ⟨by decide, trivial⟩

theorem getNext_keeps_counts (config : Option Config) (isAlive : Server → Bool) (fuel : Nat)
    (lb : LoadBalancer) (target : Server) (lb1 : LoadBalancer)
    (h : getNextAvailableServer config isAlive fuel lb = Outcome.ok (target, lb1)) :
    lb1.activeConnections = lb.activeConnections := by
  have hfirst : ∀ r, firstServer lb = Outcome.ok r → r.2 = lb := by
    intro r hr
    unfold firstServer at hr
    split at hr
    · cases hr
    · cases hr; rfl
  unfold getNextAvailableServer at h
  split at h
  · cases h
  · split at h
    · exact (roundRobin_keeps_counts isAlive fuel lb target lb1 h).1
    · split at h
      · split at h
        · cases h; rfl
        · have := hfirst _ h
          simp only at this
          rw [this]
      · have := hfirst _ h
        simp only at this
        rw [this]

/-- C8 as stated fails: in the state where the count of the only backend `A`
is `math.MaxInt64` (every count non-negative), one request served through
round-robin leaves the count of `A` at `math.MinInt64`: the increment wraps
and the deferred decrement, seeing a count that is not positive, does
nothing. -/
theorem C8_counterexample_count_overflow :
    (∀ b, 0 ≤ lbAFull.count b) ∧ lbAFull.count srvA = maxInt64
      ∧ ∃ lb', serveProxy (some roundRobinConfig) allLive alwaysFails 1 lbAFull
            = Outcome.ok (Forwarding.failed, lb')
          ∧ lb'.count srvA = minInt64 ∧ lb'.count srvA ≠ lbAFull.count srvA := by
  refine ⟨?_, rfl, _, rfl, rfl, by decide⟩
  intro b
  by_cases hb : b = srvA
  · subst hb; decide
  · simp [lbAFull, LoadBalancer.count, connectionsOf, hb]

/-- C8 (amended): from a state with non-negative counts in which the count of
the backend chosen by `getNextAvailableServer` is below `math.MaxInt64`,
`serveProxy` returns, however forwarding ends, and leaves the count of every
backend, the chosen one included, equal to its value before the request. -/
theorem C8_request_releases_accounting (config : Option Config) (isAlive : Server → Bool)
    (serve : Server → Forwarding) (fuel : Nat) (lb : LoadBalancer) (target : Server)
    (lb1 : LoadBalancer)
    (hsel : getNextAvailableServer config isAlive fuel lb = Outcome.ok (target, lb1))
    (hnn : ∀ b, 0 ≤ lb.count b) (hfit : lb.count target < maxInt64) :
    ∃ lb', serveProxy config isAlive serve fuel lb = Outcome.ok (serve target, lb')
      ∧ ∀ b, lb'.count b = lb.count b := by
  have hkeep := getNext_keeps_counts config isAlive fuel lb target lb1 hsel
  have hcount : ∀ b, lb1.count b = lb.count b := fun b => by
    simp only [LoadBalancer.count, hkeep]
  refine ⟨decrementActiveConnections (incrementActiveConnections lb1 target) target, ?_, ?_⟩
  · simp only [serveProxy, hsel]
  · intro b
    have h0 := hnn target
    have hinc : (incrementActiveConnections lb1 target).count target = lb.count target + 1 := by
      rw [count_increment_self, hcount, wrapInt_of_fits] <;>
        simp only [minInt64, maxInt64] at * <;> omega
    by_cases hb : b = target
    · subst hb
      rw [count_decrement_self _ b (by omega), hinc]
      omega
    · rw [count_decrement_other _ target b hb, count_increment_other _ target b hb, hcount]

theorem C8_request_releases_accounting_witness :
    ∃ lb', serveProxy (some leastConnConfig) allLive alwaysFails 0 lbABC311
        = Outcome.ok (alwaysFails srvA, lb')
      ∧ ∀ b, lb'.count b = lbABC311.count b :=
  C8_request_releases_accounting (some leastConnConfig) allLive alwaysFails 0 lbABC311 srvA
    lbABC311 rfl
    (fun b => by
      simp only [lbABC311, LoadBalancer.count, connectionsOf, counts311]
      split_ifs <;> simp)
    (by decide)

/-! ## Start-up -/

/-- C9 as stated fails: with an empty server list and no read error, `main`
does not fail; it produces a load balancer whose pool is empty. -/
theorem C9_counterexample_empty_pool_starts :
    emptyConfig.servers = []
      ∧ main (some emptyConfig) none = Outcome.ok (NewLoadBalancer "8080" [])
      ∧ (NewLoadBalancer "8080" []).servers = [] :=
  ⟨rfl, rfl, rfl⟩

/-- C9 (amended): the only start-up check of `main` is the error returned by
`readConfigFile`: with an error it panics, and without one it builds the
load balancer whatever the server list.  When the list is empty the pool of
that load balancer is empty, and every call of `getNextAvailableServer` on it
panics without returning a backend, for every liveness assignment and every
probe budget: with "integer divide by zero" under round-robin, with "index
out of range" under any other algorithm, and with "nil pointer dereference"
when the re-read of the configuration yields no config. -/
theorem C9_empty_pool_is_not_rejected (cfg : Config) (hempty : cfg.servers = []) :
    (∀ config msg, main config (some msg) = Outcome.panic msg)
      ∧ main (some cfg) none = Outcome.ok (NewLoadBalancer cfg.port [])
      ∧ (NewLoadBalancer cfg.port []).servers = []
      ∧ (∀ (c : Config) isAlive fuel, c.algorithm = "round-robin" →
          getNextAvailableServer (some c) isAlive fuel (NewLoadBalancer cfg.port [])
            = Outcome.panic "integer divide by zero")
      ∧ (∀ (c : Config) isAlive fuel, c.algorithm ≠ "round-robin" →
          getNextAvailableServer (some c) isAlive fuel (NewLoadBalancer cfg.port [])
            = Outcome.panic "index out of range")
      ∧ (∀ isAlive fuel,
          getNextAvailableServer none isAlive fuel (NewLoadBalancer cfg.port [])
            = Outcome.panic "nil pointer dereference")
      ∧ (∀ config isAlive fuel r,
          getNextAvailableServer config isAlive fuel (NewLoadBalancer cfg.port [])
            ≠ Outcome.ok r) := by
  have hrr : ∀ (c : Config) isAlive fuel, c.algorithm = "round-robin" →
      getNextAvailableServer (some c) isAlive fuel (NewLoadBalancer cfg.port [])
        = Outcome.panic "integer divide by zero" := by
    intro c isAlive fuel halg
    rw [getNext_roundRobin c isAlive fuel _ halg]
    cases fuel with
    | zero => rfl
    | succ fuel => rfl
  have hother : ∀ (c : Config) isAlive fuel, c.algorithm ≠ "round-robin" →
      getNextAvailableServer (some c) isAlive fuel (NewLoadBalancer cfg.port [])
        = Outcome.panic "index out of range" := by
    intro c isAlive fuel halg
    unfold getNextAvailableServer
    simp only [halg, if_false]
    split
    · rfl
    · rfl
  refine ⟨fun _ _ => rfl, ?_, rfl, hrr, hother, fun _ _ => rfl, ?_⟩
  · simp only [main, hempty, buildServers]
  · intro config isAlive fuel r h
    cases config with
    | none => cases h
    | some c =>
      by_cases halg : c.algorithm = "round-robin"
      · rw [hrr c isAlive fuel halg] at h
        cases h
      · rw [hother c isAlive fuel halg] at h
        cases h

theorem C9_empty_pool_is_not_rejected_witness :
    emptyConfig.servers = []
      ∧ main (some emptyConfig) none = Outcome.ok (NewLoadBalancer emptyConfig.port [])
      ∧ getNextAvailableServer (some roundRobinConfig) allLive 5
          (NewLoadBalancer emptyConfig.port []) = Outcome.panic "integer divide by zero"
      ∧ getNextAvailableServer (some leastConnConfig) allLive 5
          (NewLoadBalancer emptyConfig.port []) = Outcome.panic "index out of range"
      ∧ getNextAvailableServer none allLive 5
          (NewLoadBalancer emptyConfig.port []) = Outcome.panic "nil pointer dereference" :=
  have h := C9_empty_pool_is_not_rejected emptyConfig rfl
  ⟨rfl, h.2.1, h.2.2.2.1 roundRobinConfig allLive 5 rfl,
    h.2.2.2.2.1 leastConnConfig allLive 5 (by decide), h.2.2.2.2.2.1 allLive 5⟩

end Yalb
